import Mathlib

/-!
Shallow embedding of the stayreel in-memory repository (`src/storage.ts`,
`src/schema.ts`, and the hotel-creation route of the routing module),
with verified properties of its operations.

JavaScript `Map` objects are modelled as association lists with pairwise
distinct keys, kept in insertion order; `Map.prototype.set` overwrites an
existing key in place and otherwise appends.  Timestamps (`new Date()`)
are modelled as an explicit `now : Nat` parameter to every operation that
reads the clock.  JavaScript numbers holding ratings are integers per the
schema; derived averages are rationals.  Methods that can `throw` are
embedded in `Except String`.  `Array.prototype.sort` is stable, and for a
consistent comparator the stable sorted permutation is unique, so it is
modelled by `List.insertionSort` (which is stable) with the comparator's
reflexive-total order.
-/

namespace Stayreel

/-- `users` table row (`schema.ts`): id is the external identity string. -/
structure User where
  id : String
  email : Option String
  firstName : Option String
  lastName : Option String
  profileImageUrl : Option String
  createdAt : Nat
  updatedAt : Nat
deriving DecidableEq

/-- `UpsertUser` (`users.$inferInsert`): the caller-supplied user fields. -/
structure UpsertUser where
  id : String
  email : Option String
  firstName : Option String
  lastName : Option String
  profileImageUrl : Option String
deriving DecidableEq

/-- `hotels` table row (`schema.ts`). -/
structure Hotel where
  id : Nat
  name : String
  location : String
  latitude : String
  longitude : String
  createdAt : Nat
deriving DecidableEq

/-- `InsertHotel` (`insertHotelSchema`): hotel fields minus `id`, `createdAt`. -/
structure InsertHotel where
  name : String
  location : String
  latitude : String
  longitude : String
deriving DecidableEq

/-- `reviews` table row (`schema.ts`). -/
structure Review where
  id : Nat
  userId : String
  hotelId : Nat
  rating : Int
  comment : String
  videoUrl : String
  createdAt : Nat
  likes : Int
  comments : Int
deriving DecidableEq

/-- `InsertReview` (`insertReviewSchema`): review fields minus the
server-assigned `id`, `userId`, `createdAt`, `likes`, `comments`. -/
structure InsertReview where
  hotelId : Nat
  rating : Int
  comment : String
  videoUrl : String
deriving DecidableEq

/-- One step of `Map.prototype.set` on the underlying entry list: replace the
first entry with the given key in place, or append a fresh entry at the end. -/
def setEntries [DecidableEq κ] (k : κ) (v : α) : List (κ × α) → List (κ × α)
  | [] => [(k, v)]
  | e :: es => if e.1 = k then (k, v) :: es else e :: setEntries k v es

theorem map_fst_setEntries [DecidableEq κ] (k : κ) (v : α) (l : List (κ × α)) :
    (setEntries k v l).map Prod.fst =
      if k ∈ l.map Prod.fst then l.map Prod.fst else l.map Prod.fst ++ [k] := by
  induction l with
  | nil => simp [setEntries]
  | cons e es ih =>
    by_cases hek : e.1 = k
    · simp [setEntries, hek]
    · simp only [setEntries, if_neg hek, List.map_cons, ih]
      by_cases hk : k ∈ es.map Prod.fst
      · simp [hk, Ne.symm hek]
      · simp [hk, Ne.symm hek]

theorem nodup_map_fst_setEntries [DecidableEq κ] (k : κ) (v : α) (l : List (κ × α))
    (h : (l.map Prod.fst).Nodup) : ((setEntries k v l).map Prod.fst).Nodup := by
  rw [map_fst_setEntries]
  by_cases hk : k ∈ l.map Prod.fst
  · simpa [hk] using h
  · simpa [hk, List.nodup_append] using h

theorem mem_setEntries [DecidableEq κ] {k : κ} {v : α} {l : List (κ × α)} {p : κ × α}
    (hp : p ∈ setEntries k v l) : p = (k, v) ∨ p ∈ l := by
  induction l with
  | nil => simpa [setEntries] using hp
  | cons e es ih =>
    by_cases hek : e.1 = k
    · simp only [setEntries, if_pos hek, List.mem_cons] at hp
      rcases hp with h | h
      · exact Or.inl h
      · exact Or.inr (List.mem_cons_of_mem _ h)
    · simp only [setEntries, if_neg hek, List.mem_cons] at hp
      rcases hp with h | h
      · exact Or.inr (h ▸ List.mem_cons_self _ _)
      · rcases ih h with h' | h'
        · exact Or.inl h'
        · exact Or.inr (List.mem_cons_of_mem _ h')

/-- A JavaScript `Map`: entries in insertion order, keys pairwise distinct. -/
structure JsMap (κ α : Type) [DecidableEq κ] where
  entries : List (κ × α)
  nodupKeys : (entries.map Prod.fst).Nodup

variable {κ α : Type} [DecidableEq κ]

/-- `Map.prototype.get`: the value stored at the key, if any. -/
def JsMap.get? (m : JsMap κ α) (k : κ) : Option α :=
  (m.entries.find? (fun e => decide (e.1 = k))).map Prod.snd

/-- `Map.prototype.set`. -/
def JsMap.set (m : JsMap κ α) (k : κ) (v : α) : JsMap κ α :=
  ⟨setEntries k v m.entries, nodup_map_fst_setEntries k v m.entries m.nodupKeys⟩

/-- `Map.prototype.has`. -/
def JsMap.hasKey (m : JsMap κ α) (k : κ) : Bool :=
  decide (k ∈ m.entries.map Prod.fst)

/-- `Array.from(map.values())`: values in insertion order. -/
def JsMap.values (m : JsMap κ α) : List α :=
  m.entries.map Prod.snd

/-- `new Map()`. -/
def JsMap.empty : JsMap κ α := ⟨[], List.nodup_nil⟩

theorem JsMap.get?_eq_none (m : JsMap κ α) (k : κ) :
    m.get? k = none ↔ k ∉ m.entries.map Prod.fst := by
  simp only [JsMap.get?, Option.map_eq_none', List.find?_eq_none, List.mem_map,
    decide_eq_true_eq]
  constructor
  · rintro h ⟨e, he, hk⟩
    exact h e he hk
  · intro h e he hk
    exact h ⟨e, he, hk⟩

theorem JsMap.get?_set_self (m : JsMap κ α) (k : κ) (v : α) :
    (m.set k v).get? k = some v := by
  show ((setEntries k v m.entries).find? (fun e => decide (e.1 = k))).map Prod.snd = some v
  induction m.entries with
  | nil => simp [setEntries]
  | cons e es ih =>
    by_cases hek : e.1 = k
    · simp [setEntries, hek]
    · simp [setEntries, hek, ih]

theorem JsMap.mem_entries_set {m : JsMap κ α} {k : κ} {v : α} {p : κ × α}
    (hp : p ∈ (m.set k v).entries) : p = (k, v) ∨ p ∈ m.entries :=
  mem_setEntries hp

/-- With pairwise distinct keys, a present key occupies exactly one entry. -/
theorem length_filter_key_of_nodup {l : List (κ × α)} (k : κ)
    (h : (l.map Prod.fst).Nodup) :
    (l.filter (fun e => decide (e.1 = k))).length =
      if k ∈ l.map Prod.fst then 1 else 0 := by
  induction l with
  | nil => simp
  | cons e es ih =>
    simp only [List.map_cons, List.nodup_cons] at h
    by_cases hek : e.1 = k
    · have hk : k ∉ es.map Prod.fst := hek ▸ h.1
      have hz : (es.filter (fun e => decide (e.1 = k))).length = 0 := by
        simp [ih h.2, hk]
      simp [List.filter_cons, hek, hz]
    · have hiff : k ∈ e.1 :: es.map Prod.fst ↔ k ∈ es.map Prod.fst := by
        simp [List.mem_cons, Ne.symm hek]
      simp only [List.filter_cons, decide_eq_true_eq, if_neg hek, ih h.2,
        List.map_cons, hiff]

/-- The `MemStorage` state: three maps and two id counters (`storage.ts`). -/
structure MemStorage where
  users : JsMap String User
  hotels : JsMap Nat Hotel
  reviews : JsMap Nat Review
  hotelIdCounter : Nat
  reviewIdCounter : Nat

/-- The `MemStorage` constructor: empty maps, both counters at 1. -/
def MemStorage.empty : MemStorage :=
  { users := JsMap.empty, hotels := JsMap.empty, reviews := JsMap.empty,
    hotelIdCounter := 1, reviewIdCounter := 1 }

/-- `getUser`: plain lookup, absence is `none`. -/
def MemStorage.getUser (s : MemStorage) (id : String) : Option User :=
  s.users.get? id

/-- `upsertUser`: build the user record, preserving `createdAt` when the id is
already present, refreshing `updatedAt`, and store it under its id. -/
def MemStorage.upsertUser (s : MemStorage) (d : UpsertUser) (now : Nat) :
    User × MemStorage :=
  let user : User :=
    { id := d.id, email := d.email, firstName := d.firstName,
      lastName := d.lastName, profileImageUrl := d.profileImageUrl,
      createdAt :=
        match s.users.get? d.id with
        | some u => u.createdAt
        | none => now,
      updatedAt := now }
  (user, { s with users := s.users.set d.id user })

/-- `getHotels`: `Array.from(this.hotels.values())`. -/
def MemStorage.getHotels (s : MemStorage) : List Hotel :=
  s.hotels.values

/-- `getHotel`: plain lookup, absence is `none`. -/
def MemStorage.getHotel (s : MemStorage) (id : Nat) : Option Hotel :=
  s.hotels.get? id

/-- `String.prototype.toLowerCase`, modelled character-wise exactly as the
library `String.toLower` (which maps `Char.toLower` over the characters, but
through a position accumulator that blocks kernel reduction; this structural
form computes). -/
def toLowerStr (s : String) : String := ⟨s.data.map Char.toLower⟩

/-- The case-insensitive name-and-location test used by `getHotelByName`. -/
def ciMatch (h : Hotel) (name location : String) : Bool :=
  toLowerStr h.name == toLowerStr name && toLowerStr h.location == toLowerStr location

/-- `getHotelByName`: first stored hotel whose name and location match
case-insensitively, absence is `none`. -/
def MemStorage.getHotelByName (s : MemStorage) (name location : String) :
    Option Hotel :=
  s.hotels.values.find? (fun h => ciMatch h name location)

/-- `createHotel`: assign the next hotel id, stamp `createdAt`, store. -/
def MemStorage.createHotel (s : MemStorage) (d : InsertHotel) (now : Nat) :
    Hotel × MemStorage :=
  let id := s.hotelIdCounter
  let hotel : Hotel :=
    { id := id, name := d.name, location := d.location,
      latitude := d.latitude, longitude := d.longitude, createdAt := now }
  (hotel, { s with hotels := s.hotels.set id hotel, hotelIdCounter := id + 1 })

/-- `getReviews`: `Array.from(this.reviews.values())`. -/
def MemStorage.getReviews (s : MemStorage) : List Review :=
  s.reviews.values

/-- `createReview`: assign the next review id, attach the authenticated
user id, stamp `createdAt`, initialise `likes` and `comments` to 0, store. -/
def MemStorage.createReview (s : MemStorage) (d : InsertReview) (userId : String)
    (now : Nat) : Review × MemStorage :=
  let id := s.reviewIdCounter
  let review : Review :=
    { id := id, userId := userId, hotelId := d.hotelId, rating := d.rating,
      comment := d.comment, videoUrl := d.videoUrl, createdAt := now,
      likes := 0, comments := 0 }
  (review, { s with reviews := s.reviews.set id review, reviewIdCounter := id + 1 })

/-- A review spread together with its hydrated user (`{...review, user}`). -/
structure ReviewWithUser where
  review : Review
  user : User
deriving DecidableEq

/-- A review spread together with its hydrated user and hotel. -/
structure ReviewWithUserHotel where
  review : Review
  user : User
  hotel : Hotel
deriving DecidableEq

/-- `HotelWithReviews` (`schema.ts`): hotel spread with its hydrated
reviews, average rating and review count. -/
structure HotelWithReviews where
  hotel : Hotel
  reviews : List ReviewWithUser
  averageRating : ℚ
  reviewCount : Nat
deriving DecidableEq

/-- `Destination` (`schema.ts`). -/
structure Destination where
  name : String
  reviewCount : Nat
  imageUrl : String
  topHotels : List HotelWithReviews
deriving DecidableEq

/-- Order realised by the comparator `(a, b) => b.rating - a.rating`:
higher ratings first. -/
def ratingDesc (a b : Review) : Prop := b.rating ≤ a.rating

instance : DecidableRel ratingDesc := fun a b =>
  inferInstanceAs (Decidable (b.rating ≤ a.rating))

instance : IsTotal Review ratingDesc := ⟨fun a b => Int.le_total b.rating a.rating⟩

instance : IsTrans Review ratingDesc :=
  ⟨fun _ _ _ hab hbc => le_trans hbc hab⟩

/-- Order realised by the comparator `(a, b) => b.averageRating - a.averageRating`. -/
def avgDesc (a b : HotelWithReviews) : Prop := b.averageRating ≤ a.averageRating

instance : DecidableRel avgDesc := fun a b =>
  inferInstanceAs (Decidable (b.averageRating ≤ a.averageRating))

instance : IsTotal HotelWithReviews avgDesc :=
  ⟨fun a b => le_total b.averageRating a.averageRating⟩

instance : IsTrans HotelWithReviews avgDesc :=
  ⟨fun _ _ _ hab hbc => le_trans hbc hab⟩

/-- Order realised by the comparator `(a, b) => b.reviewCount - a.reviewCount`. -/
def cntDesc (a b : Destination) : Prop := b.reviewCount ≤ a.reviewCount

instance : DecidableRel cntDesc := fun a b =>
  inferInstanceAs (Decidable (b.reviewCount ≤ a.reviewCount))

instance : IsTotal Destination cntDesc :=
  ⟨fun a b => Nat.le_total b.reviewCount a.reviewCount⟩

instance : IsTrans Destination cntDesc :=
  ⟨fun _ _ _ hab hbc => le_trans hbc hab⟩

/-- JavaScript `array.map(f)` where `f` may `throw`: the first failure
aborts the whole map. -/
def mapExcept (f : α' → Except ε β) : List α' → Except ε (List β)
  | [] => .ok []
  | a :: as =>
    match f a with
    | .error e => .error e
    | .ok b =>
      match mapExcept f as with
      | .error e => .error e
      | .ok bs => .ok (b :: bs)

theorem ok_bind {ε α' β : Type} (b : α') (f : α' → Except ε β) :
    (Except.ok b >>= f) = f b := rfl

theorem error_bind {ε α' β : Type} (e : ε) (f : α' → Except ε β) :
    (Except.error e >>= f : Except ε β) = Except.error e := rfl

/-- The inline average in `storage.ts` (three identical occurrences):
`length > 0 ? reduce((sum, r) => sum + r.rating, 0) / length : 0`. -/
def averageRating (rs : List ReviewWithUser) : ℚ :=
  if 0 < rs.length then (rs.map (fun x => (x.review.rating : ℚ))).sum / rs.length
  else 0

/-- Hydration of one review with its user; a missing user throws. -/
def MemStorage.hydrateUser (s : MemStorage) (review : Review) :
    Except String ReviewWithUser :=
  match s.users.get? review.userId with
  | none => .error ("User " ++ review.userId ++ " not found")
  | some user => .ok { review := review, user := user }

/-- `getReviewsByHotel`: filter by hotel id, sort by rating descending,
hydrate each review with its user. -/
def MemStorage.getReviewsByHotel (s : MemStorage) (hotelId : Nat) :
    Except String (List ReviewWithUser) :=
  let reviews :=
    ((s.reviews.values.filter (fun r => decide (r.hotelId = hotelId))).insertionSort
      ratingDesc)
  mapExcept s.hydrateUser reviews

/-- Hydration of one review with both its user and its hotel; either
referent missing throws. -/
def MemStorage.hydrateUserHotel (s : MemStorage) (review : Review) :
    Except String ReviewWithUserHotel :=
  match s.users.get? review.userId with
  | none => .error ("User " ++ review.userId ++ " not found")
  | some user =>
    match s.hotels.get? review.hotelId with
    | none => .error ("Hotel " ++ toString review.hotelId ++ " not found")
    | some hotel => .ok { review := review, user := user, hotel := hotel }

/-- The review list `getTopReviews` hydrates: all reviews sorted by rating
descending, truncated to `limit`. -/
def MemStorage.topSlice (s : MemStorage) (limit : Nat) : List Review :=
  (s.reviews.values.insertionSort ratingDesc).take limit

/-- `getTopReviews`: sort all reviews by rating descending, take `limit`,
hydrate each with user and hotel. -/
def MemStorage.getTopReviews (s : MemStorage) (limit : Nat) :
    Except String (List ReviewWithUserHotel) :=
  mapExcept s.hydrateUserHotel (s.topSlice limit)

/-- The `HotelWithReviews` assembly repeated inline in `getHotelsWithReviews`
and `getTopDestinations`: hydrate the hotel's reviews by `hotel.id` and
attach the average rating and review count. -/
def MemStorage.mkHotelWithReviews (s : MemStorage) (hotel : Hotel) :
    Except String HotelWithReviews := do
  let hotelReviews ← s.getReviewsByHotel hotel.id
  .ok { hotel := hotel, reviews := hotelReviews,
        averageRating := averageRating hotelReviews,
        reviewCount := hotelReviews.length }

/-- `getHotelsWithReviews`: assemble a `HotelWithReviews` for every stored
hotel, in listing order. -/
def MemStorage.getHotelsWithReviews (s : MemStorage) :
    Except String (List HotelWithReviews) :=
  mapExcept s.mkHotelWithReviews s.getHotels

/-- `getHotelWithReviews`: `undefined` when the hotel id is absent,
otherwise the assembled record (reviews looked up by the id parameter). -/
def MemStorage.getHotelWithReviews (s : MemStorage) (id : Nat) :
    Except String (Option HotelWithReviews) :=
  match s.getHotel id with
  | none => .ok none
  | some hotel => do
    let hotelReviews ← s.getReviewsByHotel id
    .ok (some { hotel := hotel, reviews := hotelReviews,
                averageRating := averageRating hotelReviews,
                reviewCount := hotelReviews.length })

/-- One step of building the location groups: append the hotel to its
location's bucket, or open a fresh bucket at the end. -/
def insertGrouped (h : Hotel) : List (String × List Hotel) → List (String × List Hotel)
  | [] => [(h.location, [h])]
  | g :: gs =>
    if g.1 = h.location then (g.1, g.2 ++ [h]) :: gs else g :: insertGrouped h gs

/-- The grouping loop of `getTopDestinations` over the hotel listing. -/
def groupByLocationGo : List Hotel → List (String × List Hotel) → List (String × List Hotel)
  | [], acc => acc
  | h :: t, acc => groupByLocationGo t (insertGrouped h acc)

/-- `hotelsByLocation`: hotels grouped by exact location string, groups in
order of first appearance. -/
def groupByLocation (hs : List Hotel) : List (String × List Hotel) :=
  groupByLocationGo hs []

/-- Placeholder for the JavaScript `encodeURIComponent`; no verified
property concerns the destination image URL, so the exact percent-encoding
is immaterial and the encoder is modelled as the identity on strings. -/
def encodeURIComponent (s : String) : String := s

/-- The destination-building loop of `getTopDestinations`: per location
group, assemble every hotel, sum the review counts, skip the group when the
total is zero, otherwise keep the three best hotels by average rating. -/
def MemStorage.buildDestinations (s : MemStorage) :
    List (String × List Hotel) → Except String (List Destination)
  | [] => .ok []
  | (location, locationHotels) :: rest => do
    let hotelsWithReviews ← mapExcept s.mkHotelWithReviews locationHotels
    let totalReviews := (hotelsWithReviews.map HotelWithReviews.reviewCount).sum
    let restDest ← s.buildDestinations rest
    if totalReviews = 0 then .ok restDest
    else
      .ok ({ name := location,
             reviewCount := totalReviews,
             imageUrl := "https://source.unsplash.com/random/400x250/?" ++
               encodeURIComponent location,
             topHotels := (hotelsWithReviews.insertionSort avgDesc).take 3 } :: restDest)

/-- `getTopDestinations`: group hotels by location, build the surviving
destinations, sort by review count descending and take `limit`. -/
def MemStorage.getTopDestinations (s : MemStorage) (limit : Nat) :
    Except String (List Destination) := do
  let destinations ← s.buildDestinations (groupByLocation s.getHotels)
  .ok ((destinations.insertionSort cntDesc).take limit)

/-- The hotel-creation route (`POST /api/hotels` in the routing module):
return an existing case-insensitive match unchanged, else create. -/
def createHotelRoute (s : MemStorage) (d : InsertHotel) (now : Nat) :
    Hotel × MemStorage :=
  match s.getHotelByName d.name d.location with
  | some existingHotel => (existingHotel, s)
  | none => s.createHotel d now

/-- A sequence of `createHotel` calls, threading the store and collecting
the returned hotels in call order. -/
def createHotels (s : MemStorage) : List (InsertHotel × Nat) → List Hotel × MemStorage
  | [] => ([], s)
  | (d, now) :: rest =>
    let call := s.createHotel d now
    let rec' := createHotels call.2 rest
    (call.1 :: rec'.1, rec'.2)

/-- A sequence of `createReview` calls, threading the store and collecting
the returned reviews in call order. -/
def createReviews (s : MemStorage) :
    List (InsertReview × String × Nat) → List Review × MemStorage
  | [] => ([], s)
  | (d, userId, now) :: rest =>
    let call := s.createReview d userId now
    let rec' := createReviews call.2 rest
    (call.1 :: rec'.1, rec'.2)

/-- The `getHotelsWithReviews` method call as a state transformer on its
receiver: the body performs no mutation, so the state passes through. -/
def MemStorage.getHotelsWithReviewsOp (s : MemStorage) :
    Except String (List HotelWithReviews) × MemStorage :=
  (s.getHotelsWithReviews, s)

/-- The `getHotelWithReviews` method call as a state transformer. -/
def MemStorage.getHotelWithReviewsOp (s : MemStorage) (id : Nat) :
    Except String (Option HotelWithReviews) × MemStorage :=
  (s.getHotelWithReviews id, s)

/-- The `getReviewsByHotel` method call as a state transformer. -/
def MemStorage.getReviewsByHotelOp (s : MemStorage) (hotelId : Nat) :
    Except String (List ReviewWithUser) × MemStorage :=
  (s.getReviewsByHotel hotelId, s)

/-- The `getTopReviews` method call as a state transformer. -/
def MemStorage.getTopReviewsOp (s : MemStorage) (limit : Nat) :
    Except String (List ReviewWithUserHotel) × MemStorage :=
  (s.getTopReviews limit, s)

/-- The `getTopDestinations` method call as a state transformer. -/
def MemStorage.getTopDestinationsOp (s : MemStorage) (limit : Nat) :
    Except String (List Destination) × MemStorage :=
  (s.getTopDestinations limit, s)

/-- The repository facade's operations, for reasoning about reachable
store states. -/
inductive Op
  | upsertUser (d : UpsertUser) (now : Nat)
  | createHotel (d : InsertHotel) (now : Nat)
  | createReview (d : InsertReview) (userId : String) (now : Nat)
  | getUser (id : String)
  | getHotels
  | getHotel (id : Nat)
  | getHotelByName (name location : String)
  | getHotelsWithReviews
  | getHotelWithReviews (id : Nat)
  | getReviews
  | getReviewsByHotel (hotelId : Nat)
  | getTopReviews (limit : Nat)
  | getTopDestinations (limit : Nat)

/-- The store state after one facade operation.  The read operations
return their result without touching the store. -/
def applyOp (s : MemStorage) : Op → MemStorage
  | .upsertUser d now => (s.upsertUser d now).2
  | .createHotel d now => (s.createHotel d now).2
  | .createReview d userId now => (s.createReview d userId now).2
  | .getUser _ => s
  | .getHotels => s
  | .getHotel _ => s
  | .getHotelByName _ _ => s
  | .getHotelsWithReviews => (s.getHotelsWithReviewsOp).2
  | .getHotelWithReviews id => (s.getHotelWithReviewsOp id).2
  | .getReviews => s
  | .getReviewsByHotel hotelId => (s.getReviewsByHotelOp hotelId).2
  | .getTopReviews limit => (s.getTopReviewsOp limit).2
  | .getTopDestinations limit => (s.getTopDestinationsOp limit).2

/-- The store state after a sequence of facade operations. -/
def runOps (s : MemStorage) (ops : List Op) : MemStorage :=
  List.foldl applyOp s ops

/-- Key discipline of the store: every map entry's value carries its own
key as id, and assigned ids stay below the corresponding counter. -/
def StoreInv (s : MemStorage) : Prop :=
  (∀ e ∈ s.hotels.entries, e.2.id = e.1 ∧ e.1 < s.hotelIdCounter) ∧
  (∀ e ∈ s.reviews.entries, e.2.id = e.1 ∧ e.1 < s.reviewIdCounter) ∧
  (∀ e ∈ s.users.entries, e.2.id = e.1)

/-- Total review volume of a location: over its hotels, the number of
stored reviews referencing each hotel's id. -/
def totalReviewsAt (s : MemStorage) (location : String) : Nat :=
  ((s.hotels.values.filter (fun h => decide (h.location = location))).map
    (fun h => (s.reviews.values.filter (fun r => decide (r.hotelId = h.id))).length)).sum

theorem mapExcept_forall₂ {ε α' β : Type} {f : α' → Except ε β} :
    ∀ {xs : List α'} {ys : List β}, mapExcept f xs = .ok ys →
      List.Forall₂ (fun x y => f x = .ok y) xs ys := by
  intro xs
  induction xs with
  | nil =>
    intro ys h
    cases h
    exact List.Forall₂.nil
  | cons a as ih =>
    intro ys h
    cases hfa : f a with
    | error e => simp [mapExcept, hfa] at h
    | ok b =>
      cases hrest : mapExcept f as with
      | error e => simp [mapExcept, hfa, hrest] at h
      | ok bs =>
        simp only [mapExcept, hfa, hrest, Except.ok.injEq] at h
        cases h
        exact List.Forall₂.cons hfa (ih hrest)

theorem mapExcept_length {ε α' β : Type} {f : α' → Except ε β} {xs : List α'}
    {ys : List β} (h : mapExcept f xs = .ok ys) : ys.length = xs.length :=
  (mapExcept_forall₂ h).length_eq.symm

theorem forall₂_map_eq {α' β γ : Type} {R : α' → β → Prop} {f : β → γ} {g : α' → γ}
    (h : ∀ a b, R a b → f b = g a) :
    ∀ {xs : List α'} {ys : List β}, List.Forall₂ R xs ys → ys.map f = xs.map g := by
  intro xs ys hf
  induction hf with
  | nil => rfl
  | cons hR _ ih => simp only [List.map_cons, h _ _ hR, ih]

theorem except_isOk_iff {ε β : Type} (x : Except ε β) :
    x.isOk = true ↔ ∃ y, x = .ok y := by
  cases x <;> simp [Except.isOk, Except.toBool]

theorem mapExcept_ok_iff {ε α' β : Type} (f : α' → Except ε β) (xs : List α') :
    (∃ ys, mapExcept f xs = .ok ys) ↔ ∀ x ∈ xs, ∃ y, f x = .ok y := by
  induction xs with
  | nil => simp [mapExcept]
  | cons a as ih =>
    constructor
    · rintro ⟨ys, h⟩
      cases hfa : f a with
      | error e => simp [mapExcept, hfa] at h
      | ok b =>
        cases hrest : mapExcept f as with
        | error e => simp [mapExcept, hfa, hrest] at h
        | ok bs =>
          intro x hx
          rcases List.mem_cons.mp hx with rfl | hx
          · exact ⟨b, hfa⟩
          · exact ih.mp ⟨bs, hrest⟩ x hx
    · intro hall
      obtain ⟨b, hfa⟩ := hall a (List.mem_cons_self a as)
      obtain ⟨bs, hrest⟩ := ih.mpr fun x hx => hall x (List.mem_cons_of_mem _ hx)
      exact ⟨b :: bs, by simp [mapExcept, hfa, hrest]⟩

theorem mapExcept_isOk_iff {ε α' β : Type} (f : α' → Except ε β) (xs : List α') :
    (mapExcept f xs).isOk = true ↔ ∀ x ∈ xs, (f x).isOk = true := by
  simp only [except_isOk_iff]
  exact mapExcept_ok_iff f xs

theorem hydrateUser_review {s : MemStorage} {r : Review} {x : ReviewWithUser}
    (h : s.hydrateUser r = .ok x) : x.review = r ∧ s.getUser r.userId = some x.user := by
  cases hu : s.users.get? r.userId with
  | none => simp [MemStorage.hydrateUser, hu] at h
  | some u =>
    simp only [MemStorage.hydrateUser, hu, Except.ok.injEq] at h
    cases h
    exact ⟨rfl, hu⟩

theorem hydrateUser_isOk_false {s : MemStorage} {r : Review} :
    (s.hydrateUser r).isOk = false ↔ s.getUser r.userId = none := by
  cases hu : s.users.get? r.userId <;>
    simp [MemStorage.hydrateUser, MemStorage.getUser, hu, Except.isOk, Except.toBool]

theorem hydrateUserHotel_fields {s : MemStorage} {r : Review} {x : ReviewWithUserHotel}
    (h : s.hydrateUserHotel r = .ok x) :
    x.review = r ∧ s.getUser r.userId = some x.user ∧
      s.getHotel r.hotelId = some x.hotel := by
  cases hu : s.users.get? r.userId with
  | none => simp [MemStorage.hydrateUserHotel, hu] at h
  | some u =>
    cases hh : s.hotels.get? r.hotelId with
    | none => simp [MemStorage.hydrateUserHotel, hu, hh] at h
    | some hotel =>
      simp only [MemStorage.hydrateUserHotel, hu, hh, Except.ok.injEq] at h
      cases h
      exact ⟨rfl, hu, hh⟩

theorem hydrateUserHotel_isOk_false {s : MemStorage} {r : Review} :
    (s.hydrateUserHotel r).isOk = false ↔
      s.getUser r.userId = none ∨ s.getHotel r.hotelId = none := by
  cases hu : s.users.get? r.userId with
  | none =>
    simp [MemStorage.hydrateUserHotel, MemStorage.getUser, hu, Except.isOk,
      Except.toBool]
  | some u =>
    cases hh : s.hotels.get? r.hotelId <;>
      simp [MemStorage.hydrateUserHotel, MemStorage.getUser, MemStorage.getHotel,
        hu, hh, Except.isOk, Except.toBool]

theorem getReviewsByHotel_length {s : MemStorage} {hid : Nat}
    {rs : List ReviewWithUser} (h : s.getReviewsByHotel hid = .ok rs) :
    rs.length = (s.reviews.values.filter (fun r => decide (r.hotelId = hid))).length := by
  have hlen := mapExcept_length h
  simpa [List.length_insertionSort] using hlen

theorem mkHotelWithReviews_fields {s : MemStorage} {h : Hotel} {hw : HotelWithReviews}
    (hok : s.mkHotelWithReviews h = .ok hw) :
    hw.hotel = h ∧
    hw.reviewCount =
      (s.reviews.values.filter (fun r => decide (r.hotelId = h.id))).length ∧
    hw.averageRating = averageRating hw.reviews := by
  cases hr : s.getReviewsByHotel h.id with
  | error e => simp [MemStorage.mkHotelWithReviews, hr, error_bind] at hok
  | ok rs =>
    simp only [MemStorage.mkHotelWithReviews, hr, ok_bind, Except.ok.injEq] at hok
    cases hok
    exact ⟨rfl, getReviewsByHotel_length hr, rfl⟩

/-- Invariant of the `getTopDestinations` grouping loop: bucket keys are
pairwise distinct, every bucket holds exactly the already-processed hotels of
its location in order, and every processed hotel has a bucket. -/
def GroupsInv (processed : List Hotel) (acc : List (String × List Hotel)) : Prop :=
  (acc.map Prod.fst).Nodup ∧
  (∀ g ∈ acc, g.2 = processed.filter (fun h => decide (h.location = g.1))) ∧
  (∀ h ∈ processed, h.location ∈ acc.map Prod.fst)

theorem map_fst_insertGrouped (h : Hotel) (acc : List (String × List Hotel)) :
    (insertGrouped h acc).map Prod.fst =
      if h.location ∈ acc.map Prod.fst then acc.map Prod.fst
      else acc.map Prod.fst ++ [h.location] := by
  induction acc with
  | nil => simp [insertGrouped]
  | cons g gs ih =>
    by_cases hg : g.1 = h.location
    · simp [insertGrouped, hg]
    · simp only [insertGrouped, if_neg hg, List.map_cons, ih]
      by_cases hk : h.location ∈ gs.map Prod.fst
      · simp [hk, List.mem_cons, Ne.symm hg]
      · simp [hk, List.mem_cons, Ne.symm hg]

theorem mem_insertGrouped {h : Hotel} {acc : List (String × List Hotel)}
    (hnd : (acc.map Prod.fst).Nodup) {g : String × List Hotel}
    (hg : g ∈ insertGrouped h acc) :
    (g ∈ acc ∧ g.1 ≠ h.location) ∨
    (∃ hs₀, (g.1, hs₀) ∈ acc ∧ g.1 = h.location ∧ g.2 = hs₀ ++ [h]) ∨
    (h.location ∉ acc.map Prod.fst ∧ g = (h.location, [h])) := by
  induction acc with
  | nil =>
    simp only [insertGrouped, List.mem_singleton] at hg
    exact Or.inr (Or.inr ⟨by simp, hg⟩)
  | cons g₀ gs ih =>
    simp only [List.map_cons, List.nodup_cons] at hnd
    by_cases h₀ : g₀.1 = h.location
    · simp only [insertGrouped, if_pos h₀, List.mem_cons] at hg
      rcases hg with rfl | hg
      · exact Or.inr (Or.inl ⟨g₀.2, by
          simp [List.mem_cons_self g₀ gs], h₀, rfl⟩)
      · left
        constructor
        · exact List.mem_cons_of_mem _ hg
        · intro hloc
          exact hnd.1 (h₀ ▸ hloc ▸ List.mem_map_of_mem Prod.fst hg)
    · simp only [insertGrouped, if_neg h₀, List.mem_cons] at hg
      rcases hg with rfl | hg
      · exact Or.inl ⟨List.mem_cons_self _ _, h₀⟩
      · rcases ih hnd.2 hg with ⟨hmem, hne⟩ | ⟨hs₀, hmem, heq, hval⟩ | ⟨hnmem, heq⟩
        · exact Or.inl ⟨List.mem_cons_of_mem _ hmem, hne⟩
        · exact Or.inr (Or.inl ⟨hs₀, List.mem_cons_of_mem _ hmem, heq, hval⟩)
        · refine Or.inr (Or.inr ⟨?_, heq⟩)
          simp only [List.map_cons, List.mem_cons]
          rintro (hc | hc)
          · exact h₀ hc.symm
          · exact hnmem hc

theorem groupsInv_insert (h : Hotel) (processed : List Hotel)
    (acc : List (String × List Hotel)) (hinv : GroupsInv processed acc) :
    GroupsInv (processed ++ [h]) (insertGrouped h acc) := by
  obtain ⟨hnd, hfil, hcomp⟩ := hinv
  refine ⟨?_, ?_, ?_⟩
  · rw [map_fst_insertGrouped]
    by_cases hk : h.location ∈ acc.map Prod.fst
    · simpa [hk] using hnd
    · simpa [hk, List.nodup_append] using hnd
  · intro g hg
    rcases mem_insertGrouped hnd hg with ⟨hmem, hne⟩ | ⟨hs₀, hmem, heq, hval⟩ |
      ⟨hnmem, heq⟩
    · rw [hfil g hmem, List.filter_append]
      simp [Ne.symm hne]
    · have := hfil (g.1, hs₀) hmem
      simp only at this
      rw [hval, this, List.filter_append]
      simp [heq]
    · subst heq
      simp only [List.filter_append]
      have hnil : processed.filter (fun h' => decide (h'.location = h.location)) = [] := by
        rw [List.filter_eq_nil_iff]
        intro h' hh'
        simp only [decide_eq_true_eq]
        intro hloc
        exact hnmem (hloc ▸ hcomp h' hh')
      simp [hnil]
  · intro h' hh'
    rw [map_fst_insertGrouped]
    rcases List.mem_append.mp hh' with hh' | hh'
    · by_cases hk : h.location ∈ acc.map Prod.fst
      · simpa [hk] using hcomp h' hh'
      · simp [hk, List.mem_append, hcomp h' hh']
    · simp only [List.mem_singleton] at hh'
      subst hh'
      by_cases hk : h'.location ∈ acc.map Prod.fst
      · simp [hk]
      · simp [hk, List.mem_append]

theorem groupByLocationGo_inv (t : List Hotel) :
    ∀ processed acc, GroupsInv processed acc →
      GroupsInv (processed ++ t) (groupByLocationGo t acc) := by
  induction t with
  | nil =>
    intro processed acc h
    simpa [groupByLocationGo] using h
  | cons h ts ih =>
    intro processed acc hinv
    have step := ih (processed ++ [h]) (insertGrouped h acc)
      (groupsInv_insert h processed acc hinv)
    simpa [groupByLocationGo, List.append_assoc] using step

theorem groupByLocation_buckets (l : List Hotel) :
    ∀ g ∈ groupByLocation l, g.2 = l.filter (fun h => decide (h.location = g.1)) := by
  have hinv : GroupsInv [] [] := ⟨List.nodup_nil, by simp, by simp⟩
  have := groupByLocationGo_inv l [] [] hinv
  simpa [groupByLocation] using this.2.1

theorem buildDestinations_mem {s : MemStorage} :
    ∀ {groups : List (String × List Hotel)} {ds : List Destination},
      s.buildDestinations groups = .ok ds → ∀ d ∈ ds,
        ∃ g ∈ groups, ∃ hws, mapExcept s.mkHotelWithReviews g.2 = .ok hws ∧
          d.name = g.1 ∧
          d.reviewCount = (hws.map HotelWithReviews.reviewCount).sum ∧
          d.reviewCount ≠ 0 ∧
          d.topHotels = (hws.insertionSort avgDesc).take 3 := by
  intro groups
  induction groups with
  | nil =>
    intro ds h d hd
    simp only [MemStorage.buildDestinations, Except.ok.injEq] at h
    subst h
    simp at hd
  | cons g rest ih =>
    intro ds h d hd
    obtain ⟨location, locHotels⟩ := g
    cases hws? : mapExcept s.mkHotelWithReviews locHotels with
    | error e => simp [MemStorage.buildDestinations, hws?, error_bind] at h
    | ok hws =>
      cases hrest : s.buildDestinations rest with
      | error e =>
        simp [MemStorage.buildDestinations, hws?, hrest, ok_bind, error_bind] at h
      | ok restDest =>
        simp only [MemStorage.buildDestinations, hws?, hrest, ok_bind] at h
        by_cases hz : (hws.map HotelWithReviews.reviewCount).sum = 0
        · rw [if_pos hz] at h
          cases h
          obtain ⟨g', hg', rest'⟩ := ih hrest d hd
          exact ⟨g', List.mem_cons_of_mem _ hg', rest'⟩
        · rw [if_neg hz] at h
          cases h
          rcases List.mem_cons.mp hd with rfl | hd
          · exact ⟨(location, locHotels), List.mem_cons_self _ _, hws, hws?,
              rfl, rfl, hz, rfl⟩
          · obtain ⟨g', hg', rest'⟩ := ih hrest d hd
            exact ⟨g', List.mem_cons_of_mem _ hg', rest'⟩

theorem mem_keys_set (m : JsMap κ α) (k : κ) (v : α) :
    k ∈ (m.set k v).entries.map Prod.fst := by
  show k ∈ (setEntries k v m.entries).map Prod.fst
  rw [map_fst_setEntries]
  by_cases hk : k ∈ m.entries.map Prod.fst
  · simp [hk]
  · simp [hk]

theorem upsertUser_users (s : MemStorage) (d : UpsertUser) (t : Nat) :
    (s.upsertUser d t).2.users = s.users.set d.id (s.upsertUser d t).1 := rfl

theorem forall₂_mem_right {α' β : Type} {R : α' → β → Prop} :
    ∀ {xs : List α'} {ys : List β}, List.Forall₂ R xs ys →
      ∀ y ∈ ys, ∃ x ∈ xs, R x y := by
  intro xs ys h
  induction h with
  | nil =>
    intro y hy
    cases hy
  | cons hR hrest ih =>
    intro y hy
    rcases List.mem_cons.mp hy with rfl | hy
    · exact ⟨_, List.mem_cons_self _ _, hR⟩
    · obtain ⟨x, hx, hxy⟩ := ih y hy
      exact ⟨x, List.mem_cons_of_mem _ hx, hxy⟩

theorem createHotels_ids (s : MemStorage) (ds : List (InsertHotel × Nat)) :
    (createHotels s ds).1.map Hotel.id = List.range' s.hotelIdCounter ds.length := by
  induction ds generalizing s with
  | nil => rfl
  | cons d rest ih =>
    obtain ⟨dd, now⟩ := d
    have htail := ih ((s.createHotel dd now).2)
    simp only [createHotels, List.map_cons, List.length_cons, List.range'_succ]
    exact congrArg (List.cons _) htail

theorem createReviews_ids (s : MemStorage) (rs : List (InsertReview × String × Nat)) :
    (createReviews s rs).1.map Review.id = List.range' s.reviewIdCounter rs.length := by
  induction rs generalizing s with
  | nil => rfl
  | cons r rest ih =>
    obtain ⟨dd, userId, now⟩ := r
    have htail := ih ((s.createReview dd userId now).2)
    simp only [createReviews, List.map_cons, List.length_cons, List.range'_succ]
    exact congrArg (List.cons _) htail

/-- Test fixture: the hotel-creation payload of the end-to-end scenario. -/
def grandParisD : InsertHotel := ⟨"Grand", "Paris", "48.8", "2.3"⟩

/-- Test fixture: a store holding one hotel and nothing else. -/
def storeH : MemStorage := (MemStorage.empty.createHotel grandParisD 0).2

/-- The hotel record `createHotel` assigns for the fixture payload. -/
def grandParis : Hotel := ⟨1, "Grand", "Paris", "48.8", "2.3", 0⟩

/-- Test fixture: a user payload. -/
def userU1 : UpsertUser := ⟨"U1", none, none, none, none⟩

/-- Test fixture: the store after upserting `userU1` into the empty store. -/
def storeU : MemStorage := (MemStorage.empty.upsertUser userU1 1).2

/-- The user record the fixture upsert produces. -/
def usrW : User := (MemStorage.empty.upsertUser userU1 1).1

/-- Test fixture: one hotel, one user, two reviews with ratings 5 and 3. -/
def storeW : MemStorage :=
  (((storeH.upsertUser userU1 1).2.createReview ⟨1, 5, "great", "v1"⟩ "U1" 2).2.createReview
    ⟨1, 3, "ok", "v2"⟩ "U1" 3).2

/-- Test fixture: the hydrated rating-5 review of `storeW`. -/
def revU0 : ReviewWithUser :=
  ⟨⟨1, "U1", 1, 5, "great", "v1", 2, 0, 0⟩, ⟨"U1", none, none, none, none, 1, 1⟩⟩

/-- The `HotelWithReviews` record for the review-free fixture hotel. -/
def hwH : HotelWithReviews := ⟨grandParis, [], 0, 0⟩

/-- C1: when the store contains a hotel `H` whose name and location equal the
request's case-insensitively — and `H` is the only such hotel, as every store
reachable through the creation route guarantees — the hotel-creation route
returns `H` itself (same id) and leaves the store unchanged, creating no
duplicate. -/
theorem createHotelRoute_returns_existing (s : MemStorage) (d : InsertHotel)
    (H : Hotel) (now : Nat)
    (hmem : H ∈ s.hotels.values)
    (hci : ciMatch H d.name d.location = true)
    (huniq : ∀ h ∈ s.hotels.values, ciMatch h d.name d.location = true → h = H) :
    createHotelRoute s d now = (H, s) := by
  have hfind : s.getHotelByName d.name d.location = some H := by
    show s.hotels.values.find? (fun h => ciMatch h d.name d.location) = some H
    cases hf : s.hotels.values.find? (fun h => ciMatch h d.name d.location) with
    | none => exact absurd hci (by simpa using List.find?_eq_none.mp hf H hmem)
    | some h₀ =>
      have hp := @List.find?_some Hotel (fun h => ciMatch h d.name d.location) h₀
        s.hotels.values hf
      have hm : h₀ ∈ s.hotels.values := List.mem_of_find?_eq_some hf
      rw [huniq h₀ hm hp]
  simp [createHotelRoute, hfind]

theorem createHotelRoute_returns_existing_witness :
    grandParis ∈ storeH.hotels.values ∧
    createHotelRoute storeH ⟨"GRAND", "paris", "0", "0"⟩ 9 = (grandParis, storeH) :=
  ⟨by decide,
   createHotelRoute_returns_existing storeH ⟨"GRAND", "paris", "0", "0"⟩ grandParis 9
     (by decide) (by decide) (by decide)⟩

/-- C3: the average rating is 0 for an empty review list (not undefined, no
division by zero) and the arithmetic mean of the `rating` fields for a
non-empty list, and `getHotelWithReviews` exposes exactly this value. -/
theorem averageRating_mean (rs : List ReviewWithUser) (s : MemStorage) (id : Nat)
    (hw : HotelWithReviews) :
    averageRating [] = 0 ∧
    (rs ≠ [] →
      averageRating rs = (rs.map (fun x => (x.review.rating : ℚ))).sum / rs.length) ∧
    (s.getHotelWithReviews id = .ok (some hw) →
      hw.averageRating = averageRating hw.reviews) := by
  refine ⟨by simp [averageRating], ?_, ?_⟩
  · intro hne
    simp [averageRating, List.length_pos.mpr hne]
  · intro h
    cases hh : s.getHotel id with
    | none => simp [MemStorage.getHotelWithReviews, hh] at h
    | some hotel =>
      cases hr : s.getReviewsByHotel id with
      | error e => simp [MemStorage.getHotelWithReviews, hh, hr, error_bind] at h
      | ok rs' =>
        simp only [MemStorage.getHotelWithReviews, hh, hr, ok_bind,
          Except.ok.injEq, Option.some.injEq] at h
        subst h
        rfl

theorem averageRating_mean_witness :
    ([revU0] ≠ ([] : List ReviewWithUser)) ∧
    averageRating [revU0] =
      ([revU0].map (fun x => (x.review.rating : ℚ))).sum / [revU0].length ∧
    hwH.averageRating = averageRating hwH.reviews :=
  ⟨by decide,
   (averageRating_mean [revU0] storeH 1 hwH).2.1 (by decide),
   (averageRating_mean [revU0] storeH 1 hwH).2.2 rfl⟩

/-- C7: any sequence of N hotel creations on a fresh store returns the ids
1, 2, …, N — N distinct positive integers, strictly increasing in creation
order, starting at the initial counter value 1 — and likewise for review
creations. -/
theorem create_ids_monotonic (ds : List (InsertHotel × Nat))
    (rs : List (InsertReview × String × Nat)) :
    ((createHotels MemStorage.empty ds).1.map Hotel.id = List.range' 1 ds.length ∧
      ((createHotels MemStorage.empty ds).1.map Hotel.id).Pairwise (· < ·) ∧
      ((createHotels MemStorage.empty ds).1.map Hotel.id).Nodup ∧
      ∀ i ∈ (createHotels MemStorage.empty ds).1.map Hotel.id, 0 < i) ∧
    ((createReviews MemStorage.empty rs).1.map Review.id = List.range' 1 rs.length ∧
      ((createReviews MemStorage.empty rs).1.map Review.id).Pairwise (· < ·) ∧
      ((createReviews MemStorage.empty rs).1.map Review.id).Nodup ∧
      ∀ i ∈ (createReviews MemStorage.empty rs).1.map Review.id, 0 < i) := by
  have hh := createHotels_ids MemStorage.empty ds
  have hr := createReviews_ids MemStorage.empty rs
  have hc : MemStorage.empty.hotelIdCounter = 1 := rfl
  have hc' : MemStorage.empty.reviewIdCounter = 1 := rfl
  rw [hc] at hh
  rw [hc'] at hr
  refine ⟨⟨hh, ?_, ?_, ?_⟩, hr, ?_, ?_, ?_⟩
  · rw [hh]
    exact List.pairwise_lt_range' 1 ds.length
  · rw [hh]
    exact List.nodup_range' 1 ds.length
  · intro i hi
    rw [hh, List.mem_range'] at hi
    omega
  · rw [hr]
    exact List.pairwise_lt_range' 1 rs.length
  · rw [hr]
    exact List.nodup_range' 1 rs.length
  · intro i hi
    rw [hr, List.mem_range'] at hi
    omega

/-- C8: `upsertUser` always stamps `updatedAt` with the current time,
preserves `createdAt` when the id is already present and initialises it to
the current time otherwise, stores the returned record under its id, and a
repeated upsert of the same id leaves exactly one record with that key. -/
theorem upsertUser_contract (s : MemStorage) (d d' : UpsertUser) (u : User)
    (t t' : Nat) :
    (s.upsertUser d t).1.updatedAt = t ∧
    (s.getUser d.id = some u → (s.upsertUser d t).1.createdAt = u.createdAt) ∧
    (s.getUser d.id = none → (s.upsertUser d t).1.createdAt = t) ∧
    (s.upsertUser d t).2.users.get? d.id = some (s.upsertUser d t).1 ∧
    (d'.id = d.id →
      (((s.upsertUser d t).2.upsertUser d' t').2.users.entries.filter
        (fun e => decide (e.1 = d.id))).length = 1) := by
  refine ⟨rfl, ?_, ?_, ?_, ?_⟩
  · intro h
    show (match s.users.get? d.id with
          | some u => u.createdAt
          | none => t) = u.createdAt
    rw [show s.users.get? d.id = some u from h]
  · intro h
    show (match s.users.get? d.id with
          | some u => u.createdAt
          | none => t) = t
    rw [show s.users.get? d.id = none from h]
  · exact JsMap.get?_set_self s.users d.id (s.upsertUser d t).1
  · intro hd
    rw [upsertUser_users]
    rw [length_filter_key_of_nodup d.id (JsMap.nodupKeys _)]
    have hmem : d.id ∈
        ((s.upsertUser d t).2.users.set d'.id
          ((s.upsertUser d t).2.upsertUser d' t').1).entries.map Prod.fst :=
      hd ▸ mem_keys_set _ d'.id _
    rw [if_pos hmem]

theorem upsertUser_contract_witness :
    (MemStorage.empty.upsertUser userU1 5).1.createdAt = 5 ∧
    (storeU.upsertUser userU1 7).1.createdAt = usrW.createdAt ∧
    (((storeU.upsertUser userU1 7).2.upsertUser userU1 8).2.users.entries.filter
      (fun e => decide (e.1 = userU1.id))).length = 1 :=
  ⟨(upsertUser_contract MemStorage.empty userU1 userU1 usrW 5 6).2.2.1 (by decide),
   (upsertUser_contract storeU userU1 userU1 usrW 7 8).2.1 (by decide),
   (upsertUser_contract storeU userU1 userU1 usrW 7 8).2.2.2.2 rfl⟩

/-- C9: every Aggregation Engine read operation, viewed as a method call on
its receiver, returns the store exactly as it was — no map and no counter is
mutated. -/
theorem aggregation_reads_pure (s : MemStorage) (id hotelId limit limit' : Nat) :
    (s.getHotelsWithReviewsOp).2 = s ∧
    (s.getHotelWithReviewsOp id).2 = s ∧
    (s.getReviewsByHotelOp hotelId).2 = s ∧
    (s.getTopReviewsOp limit).2 = s ∧
    (s.getTopDestinationsOp limit').2 = s :=
  ⟨rfl, rfl, rfl, rfl, rfl⟩

theorem mapExcept_isOk_false_iff {ε α' β : Type} (f : α' → Except ε β)
    (xs : List α') :
    (mapExcept f xs).isOk = false ↔ ∃ x ∈ xs, (f x).isOk = false := by
  have hiff := mapExcept_isOk_iff f xs
  constructor
  · intro h
    by_contra hc
    push_neg at hc
    have hall : ∀ x ∈ xs, (f x).isOk = true := by
      intro x hx
      cases hok : (f x).isOk
      · exact absurd hok (hc x hx)
      · rfl
    rw [hiff.mpr hall] at h
    cases h
  · rintro ⟨x, hx, hfx⟩
    cases hok : (mapExcept f xs).isOk
    · rfl
    · rw [hiff.mp hok x hx] at hfx
      cases hfx

/-- C2: `getReviewsByHotel` fails exactly when some stored review of the
hotel references a user id absent from the store, and `getTopReviews` fails
exactly when some review it hydrates (the rating-sorted first `limit`)
references an absent user or hotel; a missing referent is never skipped.
The point lookups represent absence as `none` without failing. -/
theorem hydration_error_iff (s : MemStorage) (hotelId limit : Nat) (id : String)
    (n : Nat) (name location : String) :
    ((s.getReviewsByHotel hotelId).isOk = false ↔
      ∃ r ∈ s.reviews.values, r.hotelId = hotelId ∧ s.getUser r.userId = none) ∧
    ((s.getTopReviews limit).isOk = false ↔
      ∃ r ∈ s.topSlice limit,
        s.getUser r.userId = none ∨ s.getHotel r.hotelId = none) ∧
    (s.getUser id = none ↔ id ∉ s.users.entries.map Prod.fst) ∧
    (s.getHotel n = none ↔ n ∉ s.hotels.entries.map Prod.fst) ∧
    (s.getHotelByName name location = none ↔
      ∀ h ∈ s.hotels.values, ciMatch h name location = false) := by
  refine ⟨?_, ?_, JsMap.get?_eq_none _ _, JsMap.get?_eq_none _ _, ?_⟩
  · rw [show s.getReviewsByHotel hotelId = mapExcept s.hydrateUser
      ((s.reviews.values.filter (fun r => decide (r.hotelId = hotelId))).insertionSort
        ratingDesc) from rfl, mapExcept_isOk_false_iff]
    constructor
    · rintro ⟨r, hr, hfr⟩
      rw [List.mem_insertionSort] at hr
      have hm := List.mem_filter.mp hr
      exact ⟨r, hm.1, by simpa using hm.2, hydrateUser_isOk_false.mp hfr⟩
    · rintro ⟨r, hr, hhid, hnone⟩
      refine ⟨r, ?_, hydrateUser_isOk_false.mpr hnone⟩
      rw [List.mem_insertionSort]
      exact List.mem_filter.mpr ⟨hr, by simpa using hhid⟩
  · rw [show s.getTopReviews limit =
      mapExcept s.hydrateUserHotel (s.topSlice limit) from rfl,
      mapExcept_isOk_false_iff]
    constructor
    · rintro ⟨r, hr, hfr⟩
      exact ⟨r, hr, hydrateUserHotel_isOk_false.mp hfr⟩
    · rintro ⟨r, hr, hmiss⟩
      exact ⟨r, hr, hydrateUserHotel_isOk_false.mpr hmiss⟩
  · rw [show s.getHotelByName name location =
      s.hotels.values.find? (fun h => ciMatch h name location) from rfl,
      List.find?_eq_none]
    constructor
    · intro h h' hm
      cases hc : ciMatch h' name location
      · rfl
      · exact absurd hc (h h' hm)
    · intro h h' hm
      rw [h h' hm]
      simp

/-- C6: under success, `getTopReviews` returns exactly the rating-sorted
first `limit` stored reviews — so at most `limit` items, sorted descending
by rating — each hydrated with the user and hotel records the store holds
for its `userId` and `hotelId`. -/
theorem getTopReviews_spec (s : MemStorage) (limit : Nat)
    (xs : List ReviewWithUserHotel) (h : s.getTopReviews limit = .ok xs) :
    xs.map ReviewWithUserHotel.review = s.topSlice limit ∧
    xs.length ≤ limit ∧
    xs.Pairwise (fun a b => b.review.rating ≤ a.review.rating) ∧
    ∀ x ∈ xs, s.getUser x.review.userId = some x.user ∧
      s.getHotel x.review.hotelId = some x.hotel := by
  have hf : List.Forall₂ (fun r x => s.hydrateUserHotel r = .ok x)
      (s.topSlice limit) xs := mapExcept_forall₂ h
  have hmap : xs.map ReviewWithUserHotel.review = (s.topSlice limit).map id :=
    @forall₂_map_eq Review ReviewWithUserHotel Review
      (fun r x => s.hydrateUserHotel r = .ok x) ReviewWithUserHotel.review id
      (fun r x hx => (hydrateUserHotel_fields hx).1) (s.topSlice limit) xs hf
  rw [List.map_id] at hmap
  refine ⟨hmap, ?_, ?_, ?_⟩
  · have hlen : xs.length = (s.topSlice limit).length := by
      simpa using congrArg List.length hmap
    rw [hlen, MemStorage.topSlice, List.length_take]
    exact min_le_left _ _
  · have hsorted : (s.topSlice limit).Pairwise ratingDesc :=
      List.Pairwise.sublist (List.take_sublist _ _)
        (List.sorted_insertionSort ratingDesc _)
    have hxs := hmap ▸ hsorted
    rw [List.pairwise_map] at hxs
    exact hxs
  · intro x hx
    obtain ⟨r, hr, hrx⟩ := forall₂_mem_right hf x hx
    obtain ⟨hrev, hu, hh⟩ := hydrateUserHotel_fields hrx
    rw [hrev]
    exact ⟨hu, hh⟩

/-- The value `getTopReviews` returns on the two-review fixture store. -/
def topRevsW : List ReviewWithUserHotel := (storeW.getTopReviews 10).toOption.getD []

theorem getTopReviews_spec_witness :
    storeW.getTopReviews 10 = .ok topRevsW ∧ topRevsW.length ≤ 10 :=
  ⟨rfl, (getTopReviews_spec storeW 10 topRevsW rfl).2.1⟩

/-- C5: under success, `getTopDestinations` returns at most `limit`
destinations sorted descending by `reviewCount`, and each destination's
`topHotels` holds at most 3 hotels sorted descending by `averageRating`. -/
theorem getTopDestinations_sorted (s : MemStorage) (limit : Nat)
    (ds : List Destination) (h : s.getTopDestinations limit = .ok ds) :
    ds.length ≤ limit ∧
    ds.Pairwise (fun a b => b.reviewCount ≤ a.reviewCount) ∧
    ∀ d ∈ ds, d.topHotels.length ≤ 3 ∧
      d.topHotels.Pairwise (fun a b => b.averageRating ≤ a.averageRating) := by
  cases hb : s.buildDestinations (groupByLocation s.getHotels) with
  | error e => simp [MemStorage.getTopDestinations, hb, error_bind] at h
  | ok dest =>
    simp only [MemStorage.getTopDestinations, hb, ok_bind, Except.ok.injEq] at h
    subst h
    refine ⟨?_, ?_, ?_⟩
    · rw [List.length_take]
      exact min_le_left _ _
    · exact List.Pairwise.sublist (List.take_sublist _ _)
        (List.sorted_insertionSort cntDesc _)
    · intro d hd
      have hmem : d ∈ dest :=
        (List.mem_insertionSort cntDesc).mp ((List.take_sublist _ _).subset hd)
      obtain ⟨g, hg, hws, hwsok, hname, hcnt, hnz, htop⟩ :=
        buildDestinations_mem hb d hmem
      constructor
      · rw [htop, List.length_take]
        exact min_le_left _ _
      · rw [htop]
        exact List.Pairwise.sublist (List.take_sublist _ _)
          (List.sorted_insertionSort avgDesc _)

/-- The value `getTopDestinations` returns on the two-review fixture store. -/
def destsW : List Destination := (storeW.getTopDestinations 10).toOption.getD []

theorem getTopDestinations_sorted_witness :
    storeW.getTopDestinations 10 = .ok destsW ∧ destsW.length ≤ 10 :=
  ⟨rfl, (getTopDestinations_sorted storeW 10 destsW rfl).1⟩

/-- C4: under success, every destination `getTopDestinations` returns has a
non-zero total review count — its `reviewCount` is exactly the number of
stored reviews over the hotels of its location — so a location whose hotels
have zero reviews in total never appears in the output. -/
theorem getTopDestinations_skips_empty (s : MemStorage) (limit : Nat)
    (ds : List Destination) (h : s.getTopDestinations limit = .ok ds) :
    (∀ d ∈ ds, d.reviewCount = totalReviewsAt s d.name ∧
      totalReviewsAt s d.name ≠ 0) ∧
    ∀ location, totalReviewsAt s location = 0 → ∀ d ∈ ds, d.name ≠ location := by
  have hmain : ∀ d ∈ ds, d.reviewCount = totalReviewsAt s d.name ∧
      totalReviewsAt s d.name ≠ 0 := by
    cases hb : s.buildDestinations (groupByLocation s.getHotels) with
    | error e => simp [MemStorage.getTopDestinations, hb, error_bind] at h
    | ok dest =>
      simp only [MemStorage.getTopDestinations, hb, ok_bind, Except.ok.injEq] at h
      subst h
      intro d hd
      have hmem : d ∈ dest :=
        (List.mem_insertionSort cntDesc).mp ((List.take_sublist _ _).subset hd)
      obtain ⟨g, hg, hws, hwsok, hname, hcnt, hnz, htop⟩ :=
        buildDestinations_mem hb d hmem
      have hf := mapExcept_forall₂ hwsok
      have hmapc : hws.map HotelWithReviews.reviewCount =
          g.2.map (fun h' =>
            (s.reviews.values.filter (fun r => decide (r.hotelId = h'.id))).length) :=
        @forall₂_map_eq Hotel HotelWithReviews Nat
          (fun h' hw => s.mkHotelWithReviews h' = .ok hw)
          HotelWithReviews.reviewCount
          (fun h' =>
            (s.reviews.values.filter (fun r => decide (r.hotelId = h'.id))).length)
          (fun a b hab => (mkHotelWithReviews_fields hab).2.1) g.2 hws hf
      have hbucket := groupByLocation_buckets s.getHotels g hg
      have hval : d.reviewCount = totalReviewsAt s g.1 := by
        rw [hcnt, hmapc, hbucket]
        rfl
      rw [hname]
      exact ⟨hval, fun hz => hnz (hz ▸ hval)⟩
  refine ⟨hmain, ?_⟩
  intro location hz d hd heq
  exact (hmain d hd).2 (heq ▸ hz)

theorem getTopDestinations_skips_empty_witness :
    storeW.getTopDestinations 10 = .ok destsW ∧
    ∀ d ∈ destsW, d.reviewCount = totalReviewsAt storeW d.name ∧
      totalReviewsAt storeW d.name ≠ 0 :=
  ⟨rfl, (getTopDestinations_skips_empty storeW 10 destsW rfl).1⟩

theorem storeInv_empty : StoreInv MemStorage.empty := by
  refine ⟨?_, ?_, ?_⟩ <;> intro e he <;> simp [MemStorage.empty, JsMap.empty] at he

theorem storeInv_applyOp (s : MemStorage) (op : Op) (h : StoreInv s) :
    StoreInv (applyOp s op) := by
  obtain ⟨hh, hr, hu⟩ := h
  cases op with
  | upsertUser d now =>
    refine ⟨hh, hr, ?_⟩
    intro e he
    rcases JsMap.mem_entries_set he with rfl | he
    · rfl
    · exact hu e he
  | createHotel d now =>
    refine ⟨?_, ?_, hu⟩
    · intro e he
      rcases JsMap.mem_entries_set he with rfl | he
      · exact ⟨rfl, Nat.lt_succ_self _⟩
      · obtain ⟨h1, h2⟩ := hh e he
        exact ⟨h1, Nat.lt_succ_of_lt h2⟩
    · intro e he
      exact hr e he
  | createReview d userId now =>
    refine ⟨?_, ?_, hu⟩
    · intro e he
      exact hh e he
    · intro e he
      rcases JsMap.mem_entries_set he with rfl | he
      · exact ⟨rfl, Nat.lt_succ_self _⟩
      · obtain ⟨h1, h2⟩ := hr e he
        exact ⟨h1, Nat.lt_succ_of_lt h2⟩
  | getUser id => exact ⟨hh, hr, hu⟩
  | getHotels => exact ⟨hh, hr, hu⟩
  | getHotel id => exact ⟨hh, hr, hu⟩
  | getHotelByName name location => exact ⟨hh, hr, hu⟩
  | getHotelsWithReviews => exact ⟨hh, hr, hu⟩
  | getHotelWithReviews id => exact ⟨hh, hr, hu⟩
  | getReviews => exact ⟨hh, hr, hu⟩
  | getReviewsByHotel hotelId => exact ⟨hh, hr, hu⟩
  | getTopReviews limit => exact ⟨hh, hr, hu⟩
  | getTopDestinations limit => exact ⟨hh, hr, hu⟩

/-- C10: in every store reachable from a fresh `MemStorage` by facade
operations, each hotel entry stores its own key as id below the hotel
counter, each review entry likewise below the review counter, and each user
entry stores its own key as id; every operation preserves this invariant. -/
theorem storeInv_reachable (ops : List Op) (s : MemStorage) (op : Op) :
    StoreInv (runOps MemStorage.empty ops) ∧
    (StoreInv s → StoreInv (applyOp s op)) := by
  constructor
  · suffices h : ∀ ops' s', StoreInv s' → StoreInv (runOps s' ops') from
      h ops MemStorage.empty storeInv_empty
    intro ops'
    induction ops' with
    | nil =>
      intro s' h'
      exact h'
    | cons op' rest ih =>
      intro s' h'
      exact ih _ (storeInv_applyOp s' op' h')
  · exact storeInv_applyOp s op

/-- Test fixture: a store whose one review references a user id that was
never stored — the dangling-reference shape the error contract is about. -/
def storeDangling : MemStorage := (storeH.createReview ⟨1, 4, "c", "v"⟩ "ghost" 5).2

theorem hydration_error_iff_witness :
    (storeDangling.getReviewsByHotel 1).isOk = false ∧
    storeH.getUser "nobody" = none :=
  ⟨(hydration_error_iff storeDangling 1 10 "x" 1 "n" "l").1.mpr (by decide),
   (hydration_error_iff storeH 1 10 "nobody" 1 "n" "l").2.2.1.mpr (by decide)⟩

theorem create_ids_monotonic_witness :
    (createHotels MemStorage.empty [(grandParisD, 0), (grandParisD, 1)]).1.map
      Hotel.id = List.range' 1 2 :=
  (create_ids_monotonic [(grandParisD, 0), (grandParisD, 1)] []).1.1

theorem storeInv_reachable_witness :
    StoreInv (applyOp MemStorage.empty (Op.createHotel grandParisD 0)) ∧
    StoreInv (runOps MemStorage.empty
      [Op.createHotel grandParisD 0, Op.upsertUser userU1 1]) :=
  ⟨(storeInv_reachable [] MemStorage.empty (Op.createHotel grandParisD 0)).2
      storeInv_empty,
   (storeInv_reachable [Op.createHotel grandParisD 0, Op.upsertUser userU1 1]
      MemStorage.empty Op.getHotels).1⟩

end Stayreel
